import Mathlib

/-!
Shallow embedding of the Code-Efficiency-Analyser core
(`backend/analysis/complexity.py` and `backend/analysis/project_analyzer.py`).

Python strings are modelled as Lean `String`/`List Char`; Python floats are
modelled as `ℚ` (all values produced by the analyzer are decimal fractions of
denominator dividing 10, so no binary-float rounding or half-even tie ever
becomes observable at the 2-decimal reporting granularity); Python dicts are
modelled as insertion-ordered association lists; Python sets as
insertion-ordered duplicate-free lists (CPython set iteration order is
unspecified, and no property below depends on that order); raising `ValueError`
is modelled as returning `none`; the real filesystem consulted by
`os.path.exists` / `os.path.isfile` is modelled by an explicit `FileSystem`
record passed to the functions that consult it.
-/

/-! ### Character classes and basic string helpers -/

/-- Characters treated as whitespace by Python's `str.strip()` / regex `\s`
(the ASCII part plus the common Unicode line separators; the exotic Unicode
space code points do not occur in any input considered here). -/
def isPyWs (c : Char) : Bool :=
  c == ' ' || c == '\t' || c == '\n' || c == '\r' || c == '\x0b' || c == '\x0c' ||
  c == '\x1c' || c == '\x1d' || c == '\x1e' || c == '\x1f' || c == '\x85' ||
  c == '\xa0' || c == ' ' || c == ' '

/-- Line-break characters recognised by Python's `str.splitlines` (besides the
two-character sequence `\r\n`, handled separately). -/
def isLineBreak (c : Char) : Bool :=
  c == '\n' || c == '\r' || c == '\x0b' || c == '\x0c' ||
  c == '\x1c' || c == '\x1d' || c == '\x1e' || c == '\x85' ||
  c == ' ' || c == ' '

/-- Python `str.splitlines`: split at every line break, `\r\n` counting as one
break; no trailing empty line for a text ending in a break; `""` gives `[]`. -/
def splitlinesAux : List Char → List Char → List (List Char)
  | [], acc => if acc.isEmpty then [] else [acc.reverse]
  | '\r' :: '\n' :: rest, acc => acc.reverse :: splitlinesAux rest []
  | c :: rest, acc =>
    if isLineBreak c then acc.reverse :: splitlinesAux rest []
    else splitlinesAux rest (c :: acc)

def splitlines (s : List Char) : List (List Char) :=
  splitlinesAux s []

/-- Python `str.strip()` with no argument: drop leading and trailing
whitespace. -/
def pyStrip (l : List Char) : List Char :=
  ((l.dropWhile isPyWs).reverse.dropWhile isPyWs).reverse

/-- Python `str.lower()` on the ASCII range (all strings the analyzer
lowercases are ASCII). -/
def pyLower (l : List Char) : List Char :=
  l.map Char.toLower

/-- Python `str.startswith(p)`. -/
def pyStartswith (l : List Char) (p : List Char) : Bool :=
  p.isPrefixOf l

/-! ### Keyword tables (`complexity.py`, lines 10–25) -/

def LOOP_KEYWORDS : List (String × List String) :=
  [("python", ["for", "while"]), ("java", ["for", "while", "do"])]

def CONDITIONAL_KEYWORDS : List (String × List String) :=
  [("python", ["if", "elif", "else", "match"]),
   ("java", ["if", "else", "switch", "case"])]

def FUNCTION_KEYWORDS : List (String × List String) :=
  [("python", ["def", "class"]),
   ("java", ["class", "void", "public", "private", "protected"])]

def SUPPORTED_LANGUAGES : List String := ["python", "java"]

/-- Association-list lookup with string keys (Python dict indexing; the `[]`
default is never reached in the source because lookups are guarded by
`SUPPORTED_LANGUAGES` membership). -/
def kwLookup (tbl : List (String × List String)) (lang : String) : List String :=
  match tbl with
  | [] => []
  | (k, v) :: rest => if k = lang then v else kwLookup rest lang

/-! ### `_sanitize_language` (`complexity.py`, lines 52–58)

Raising `ValueError` for an unsupported language is modelled as `none`. -/

def sanitize_language (language : String) : Option String :=
  let normalized := String.mk (pyLower (pyStrip language.data))
  if SUPPORTED_LANGUAGES.contains normalized then some normalized else none

/-! ### `_count_keywords` (`complexity.py`, lines 61–65)

The source builds the pattern as `r"\\b(" + "|".join(...) + r")\\b"`.  Inside a
raw string, `r"\\b"` is the two characters backslash, backslash followed by
`b`; compiled as a regex, `\\` matches one literal backslash and `b` the letter
`b`.  So the pattern matches the literal text backslash-`b`, then one of the
keywords (alternatives tried in list order), then literal backslash-`b` — it is
NOT a word-boundary match.  `re.findall` counts non-overlapping matches
scanning left to right. -/

/-- The literal character sequence the compiled pattern requires around and
including one keyword: `\` `b` ++ keyword ++ `\` `b`. -/
def kwPattern (kw : String) : List Char :=
  '\\' :: 'b' :: (kw.data ++ ['\\', 'b'])

/-- Left-to-right non-overlapping scan of `re.findall` for the pattern above:
at each position try the alternatives in order; on a match, resume after it.
The fuel argument (initially the text length) only makes the recursion
structural; every step consumes at least one character, so it never runs out. -/
def countKeywordsScan (keywords : List String) : Nat → List Char → Nat
  | _, [] => 0
  | 0, _ :: _ => 0
  | fuel + 1, c :: rest =>
    match keywords.find? (fun kw => (kwPattern kw).isPrefixOf (c :: rest)) with
    | some kw => 1 + countKeywordsScan keywords fuel (rest.drop (kw.data.length + 3))
    | none => countKeywordsScan keywords fuel rest

def count_keywords (code : String) (keywords : List String) : Nat :=
  if keywords.isEmpty then 0 else countKeywordsScan keywords code.data.length code.data

/-! ### `_count_duplicate_lines` (`complexity.py`, lines 68–71) -/

def count_duplicate_lines (lines : List (List Char)) : Nat :=
  let nonEmpty := lines.filter (fun l => !l.isEmpty)
  let distinct := nonEmpty.dedup
  ((distinct.filter (fun l => 1 < nonEmpty.count l)).map
    (fun l => nonEmpty.count l - 1)).sum

/-! ### `_count_repeated_sequences` (`complexity.py`, lines 74–82) -/

def count_repeated_sequences (lines : List (List Char)) (window : Nat) : Nat :=
  if lines.length < window then 0
  else
    let wins := ((List.range (lines.length - window + 1)).map
        (fun i => (lines.drop i).take window)).filter
        (fun w => w.all (fun l => !l.isEmpty))
    let distinctW := wins.dedup
    ((distinctW.filter (fun w => 1 < wins.count w)).map
      (fun w => wins.count w - 1)).sum

/-! ### `_estimate_complexity` (`complexity.py`, lines 85–88) -/

def estimate_complexity (loops conditionals functions duplicates : Nat) : ℚ :=
  let base : ℚ := 1 + (loops : ℚ) * 1.8 + (conditionals : ℚ) * 1.2 + (functions : ℚ) * 0.5
  let penalty : ℚ := (duplicates : ℚ) * 0.7
  base + penalty

/-! ### `ComplexityReport` and `as_dict` (`complexity.py`, lines 28–49) -/

structure ComplexityReport where
  language : String
  lines_of_code : Nat
  loops : Nat
  conditionals : Nat
  functions : Nat
  duplicate_lines : Nat
  repeated_sequences : Nat
  estimated_complexity : ℚ
deriving DecidableEq, Repr

/-- Python `round(x, 2)` on the analyzer's values: round-to-nearest at two
decimal places.  Every value the analyzer rounds is a multiple of `1/10`, so
`q * 100` is an integer and no tie-breaking rule is ever exercised. -/
def round2 (q : ℚ) : ℚ :=
  ((round (q * 100) : ℤ) : ℚ) / 100

/-- `as_dict` keeps every count and rounds the composite score; the returned
heterogeneous dict is modelled by the same record type. -/
def ComplexityReport.as_dict (r : ComplexityReport) : ComplexityReport :=
  { r with estimated_complexity := round2 r.estimated_complexity }

/-! ### `analyze_code_complexity` (`complexity.py`, lines 91–116) -/

def analyze_code_complexity (code : String) (language : String) :
    Option ComplexityReport :=
  match sanitize_language language with
  | none => none
  | some normalized_language =>
    let normalized_lines := (splitlines code.data).map pyStrip
    let lines_of_code := (normalized_lines.filter (fun l => !l.isEmpty)).length
    let loops := count_keywords code (kwLookup LOOP_KEYWORDS normalized_language)
    let conditionals :=
      count_keywords code (kwLookup CONDITIONAL_KEYWORDS normalized_language)
    let functions :=
      count_keywords code (kwLookup FUNCTION_KEYWORDS normalized_language)
    let duplicate_lines := count_duplicate_lines normalized_lines
    let repeated_sequences := count_repeated_sequences normalized_lines 3
    let report : ComplexityReport :=
      { language := normalized_language
        lines_of_code := lines_of_code
        loops := loops
        conditionals := conditionals
        functions := functions
        duplicate_lines := duplicate_lines
        repeated_sequences := repeated_sequences
        estimated_complexity :=
          estimate_complexity loops conditionals functions
            (duplicate_lines + repeated_sequences) }
    some report.as_dict

/-! ## `project_analyzer.py` -/

/-! ### Path helpers (`os.path` / `pathlib`, POSIX semantics)

`os.path.exists` / `os.path.isfile` consult the real filesystem; it is
modelled by an explicit record of the existing regular files and directories.
`abspath`/`relpath` depend on the process working directory, modelled as the
fixed directory `/cwd`. -/

structure FileSystem where
  files : List String
  dirs : List String
deriving DecidableEq, Repr

def os_path_exists (fs : FileSystem) (p : String) : Bool :=
  fs.files.contains p || fs.dirs.contains p

def os_path_isfile (fs : FileSystem) (p : String) : Bool :=
  fs.files.contains p

/-- Python `str.split(sep)` for a one-character separator (never returns an
empty list: splitting the empty string gives one empty piece). -/
def splitOnCharAux (sep : Char) : List Char → List Char → List (List Char)
  | [], acc => [acc.reverse]
  | c :: rest, acc =>
    if c == sep then acc.reverse :: splitOnCharAux sep rest []
    else splitOnCharAux sep rest (c :: acc)

def splitOnChar (sep : Char) (l : List Char) : List (List Char) :=
  splitOnCharAux sep l []

/-- Generic association-list lookup modelling Python dict indexing / `in`. -/
def dictGet {α : Type} : List (String × α) → String → Option α
  | [], _ => none
  | (k, v) :: rest, key => if k = key then some v else dictGet rest key

/-- `pathlib.PurePath.name`: the last path component, with empty and `.`
components dropped the way `pathlib` normalizes them. -/
def pathlib_name (filename : String) : List Char :=
  let comps := (splitOnChar '/' filename.data).filter
    (fun p => !p.isEmpty && p != ['.'])
  (comps.getLast?).getD []

/-- `pathlib.PurePath.suffix`: the extension of `name`, i.e. `name[i:]` for the
last dot index `i` when `0 < i < len(name) - 1`, else empty. -/
def pathlib_suffix (filename : String) : List Char :=
  let name := pathlib_name filename
  let afterDot := name.reverse.takeWhile (fun c => c != '.')
  if afterDot.length == name.length then []
  else
    let j := afterDot.length
    let i := name.length - 1 - j
    if 0 < i ∧ 0 < j then '.' :: afterDot.reverse else []

/-- `os.path.dirname` (posixpath). -/
def dirname (p : String) : String :=
  let afterSlash := p.data.reverse.dropWhile (fun c => c != '/')
  match afterSlash with
  | [] => ""
  | _ =>
    let head := afterSlash.reverse
    if head.all (fun c => c == '/') then String.mk head
    else String.mk (afterSlash.dropWhile (fun c => c == '/')).reverse

/-- `os.path.join` for two components (posixpath). -/
def join2 (a b : String) : String :=
  if pyStartswith b.data ['/'] then b
  else if a = "" || a.data.getLast? == some '/' then a ++ b
  else a ++ "/" ++ b

def join3 (a b c : String) : String :=
  join2 (join2 a b) c

/-- `os.path.normpath` (posixpath): purely lexical normalization. -/
def normpath (p : String) : String :=
  if p = "" then "."
  else
    let initialSlashes : Nat :=
      if pyStartswith p.data ['/'] then
        if pyStartswith p.data ['/', '/'] && !pyStartswith p.data ['/', '/', '/'] then 2
        else 1
      else 0
    let comps := splitOnChar '/' p.data
    let newComps := comps.foldl (fun acc comp =>
      if comp.isEmpty || comp == ['.'] then acc
      else if comp != ['.', '.'] || (initialSlashes == 0 && acc.isEmpty) ||
          (!acc.isEmpty && acc.getLast? == some ['.', '.']) then acc ++ [comp]
      else if !acc.isEmpty then acc.dropLast
      else acc) ([] : List (List Char))
    let joined := String.mk (List.intercalate ['/'] newComps)
    let out := String.mk (List.replicate initialSlashes '/') ++ joined
    if out = "" then "." else out

/-- `os.path.abspath` with the working directory modelled as `/cwd`. -/
def abspath (p : String) : String :=
  if pyStartswith p.data ['/'] then normpath p else normpath (join2 "/cwd" p)

def commonPrefixLen : List (List Char) → List (List Char) → Nat
  | a :: l1, b :: l2 => if a == b then 1 + commonPrefixLen l1 l2 else 0
  | _, _ => 0

/-- `os.path.relpath` (posixpath), under the modelled working directory. -/
def relpath (path start : String) : String :=
  let pathList := (splitOnChar '/' (abspath path).data).filter (fun x => !x.isEmpty)
  let startList := (splitOnChar '/' (abspath start).data).filter (fun x => !x.isEmpty)
  let i := commonPrefixLen startList pathList
  let relList := List.replicate (startList.length - i) ['.', '.'] ++ pathList.drop i
  if relList.isEmpty then "." else String.mk (List.intercalate ['/'] relList)

/-! ### `detect_language_from_filename` (`project_analyzer.py`, lines 14–26) -/

def ext_map : List (String × String) :=
  [(".py", "python"), (".java", "java"), (".js", "javascript"),
   (".jsx", "javascript"), (".html", "html"), (".htm", "html"), (".css", "css")]

def detect_language_from_filename (filename : String) : Option String :=
  let ext := String.mk (pyLower (pathlib_suffix filename))
  dictGet ext_map ext

/-! ### `find_imports_and_dependencies` (`project_analyzer.py`, lines 29–65)

All pattern families are applied by `re.findall(pattern, code,
re.MULTILINE | re.IGNORECASE)`, so every literal keyword below matches
case-insensitively.  Each regex family is translated into an explicit scanner
with the same leftmost, non-overlapping match semantics (greedy/lazy
backtracking resolved as the `re` engine would). -/

def isIdentStart (c : Char) : Bool :=
  c.isAlpha || c == '_'

def isIdentChar (c : Char) : Bool :=
  c.isAlpha || c.isDigit || c == '_'

/-- Match a literal pattern case-insensitively at the head, returning the rest. -/
def matchCI : List Char → List Char → Option (List Char)
  | [], rest => some rest
  | _, [] => none
  | p :: ps, c :: rest => if c.toLower == p.toLower then matchCI ps rest else none

/-- Parse `[a-zA-Z_][a-zA-Z0-9_]*` at the head. -/
def parseIdent (cs : List Char) : Option (List Char × List Char) :=
  match cs with
  | [] => none
  | c :: rest =>
    if isIdentStart c then
      let more := rest.takeWhile isIdentChar
      some (c :: more, rest.drop more.length)
    else none

def parseDottedAux : Nat → List Char → List Char → List Char × List Char
  | 0, accRev, rest => (accRev.reverse, rest)
  | fuel + 1, accRev, rest =>
    match rest with
    | '.' :: r2 =>
      match parseIdent r2 with
      | some (idt, r3) => parseDottedAux fuel (idt.reverse ++ '.' :: accRev) r3
      | none => (accRev.reverse, rest)
    | _ => (accRev.reverse, rest)

/-- Parse the capture group `[a-zA-Z_]\w*(?:\.[a-zA-Z_]\w*)*` greedily. -/
def parseDotted (cs : List Char) : Option (List Char × List Char) :=
  match parseIdent cs with
  | some (idt, rest) =>
    let res := parseDottedAux rest.length idt.reverse rest
    some res
  | none => none

/-- One line of Python's `"a\nb".split`-style splitting at `\n` only: exactly
the anchor positions of `re.MULTILINE` `^`. -/
def splitNL (s : List Char) : List (List Char) :=
  splitOnCharAux '\n' s []

/-- Capture of `^\s*import\s+(<dotted>)` on one line. -/
def pyImportCapture (line : List Char) : Option (List Char) :=
  let t := line.dropWhile isPyWs
  match matchCI "import".data t with
  | some rest =>
    match rest with
    | c :: _ =>
      if isPyWs c then (parseDotted (rest.dropWhile isPyWs)).map Prod.fst else none
    | [] => none
  | none => none

/-- Capture of `^\s*from\s+(<dotted>)\s+import` on one line. -/
def pyFromCapture (line : List Char) : Option (List Char) :=
  let t := line.dropWhile isPyWs
  match matchCI "from".data t with
  | some rest =>
    match rest with
    | c :: _ =>
      if isPyWs c then
        match parseDotted (rest.dropWhile isPyWs) with
        | some (captured, rest2) =>
          match rest2 with
          | d :: _ =>
            if isPyWs d then
              match matchCI "import".data (rest2.dropWhile isPyWs) with
              | some _ => some captured
              | none => none
            else none
          | [] => none
        | none => none
      else none
    | [] => none
  | none => none

/-- Parse `['"]([^'"]+)['"]` at the head: quote, non-empty run of non-quote
characters (the capture), then either closing quote. -/
def parseQuoted (cs : List Char) : Option (List Char × List Char) :=
  match cs with
  | q :: rest =>
    if q == '\'' || q == '"' then
      let content := rest.takeWhile (fun c => c != '\'' && c != '"')
      if content.isEmpty then none
      else
        match rest.drop content.length with
        | q2 :: rest2 => if q2 == '\'' || q2 == '"' then some (content, rest2) else none
        | [] => none
    else none
  | [] => none

/-- Tail `\s+from\s+['"]([^'"]+)['"]` of the ES-module import pattern. -/
def jsFromTail (cs : List Char) : Option (List Char × List Char) :=
  match cs with
  | c :: _ =>
    if isPyWs c then
      match matchCI "from".data (cs.dropWhile isPyWs) with
      | some r2 =>
        match r2 with
        | d :: _ => if isPyWs d then parseQuoted (r2.dropWhile isPyWs) else none
        | [] => none
      | none => none
    else none
  | [] => none

/-- Match `import\s+.*?\s+from\s+['"]([^'"]+)['"]` starting at the head:
`\s+` greedy (longest whitespace first), `.*?` lazy (shortest non-newline
stretch first), exactly the backtracking order of the `re` engine. -/
def jsImportFromHere (cs : List Char) : Option (List Char × List Char) :=
  match matchCI "import".data cs with
  | some rest =>
    let m := (rest.takeWhile isPyWs).length
    if m == 0 then none
    else
      ((List.range m).map (fun t => m - t)).findSome? (fun j =>
        let afterWs := rest.drop j
        let maxK := (afterWs.takeWhile (fun c => c != '\n')).length
        (List.range (maxK + 1)).findSome? (fun k => jsFromTail (afterWs.drop k)))
  | none => none

/-- Match `<kw>\s*\(\s*['"]([^'"]+)['"]` starting at the head (`require(...)`
and dynamic `import(...)`). -/
def callCaptureHere (keyword : List Char) (cs : List Char) : Option (List Char × List Char) :=
  match matchCI keyword cs with
  | some rest =>
    match rest.dropWhile isPyWs with
    | '(' :: r2 => parseQuoted (r2.dropWhile isPyWs)
    | _ => none
  | none => none

/-- Match `<<tag>[^>]+<attr>=["']([^"']+)["']` starting at the head; the
greedy `[^>]+` chunk backtracks from longest to shortest. -/
def tagAttrHere (tag attr : List Char) (cs : List Char) : Option (List Char × List Char) :=
  match cs with
  | '<' :: rest =>
    match matchCI tag rest with
    | some r1 =>
      let m := (r1.takeWhile (fun c => c != '>')).length
      ((List.range m).map (fun t => m - t)).findSome? (fun j =>
        match matchCI (attr ++ ['=']) (r1.drop j) with
        | some r2 => parseQuoted r2
        | none => none)
    | none => none
  | _ => none

/-- Match `@import\s+["']([^"']+)["']` starting at the head. -/
def cssImportHere (cs : List Char) : Option (List Char × List Char) :=
  match cs with
  | '@' :: rest =>
    match matchCI "import".data rest with
    | some r1 =>
      match r1 with
      | c :: _ => if isPyWs c then parseQuoted (r1.dropWhile isPyWs) else none
      | [] => none
    | none => none
  | _ => none

/-- `re.findall` driver for the unanchored patterns: scan left to right, on a
match record the capture and resume after the match, else advance one
character.  The fuel starts at the text length and never runs out, since every
step consumes at least one character. -/
def scanWith (hereMatch : List Char → Option (List Char × List Char)) :
    Nat → List Char → List (List Char)
  | 0, _ => []
  | _, [] => []
  | fuel + 1, c :: rest =>
    match hereMatch (c :: rest) with
    | some (cap, rest2) => cap :: scanWith hereMatch fuel rest2
    | none => scanWith hereMatch fuel rest

def findall (hereMatch : List Char → Option (List Char × List Char))
    (code : List Char) : List (List Char) :=
  scanWith hereMatch code.length code

def find_imports_and_dependencies (code : String) (language : String) :
    List String :=
  let raw : List (List Char) :=
    if language = "python" then
      ((splitNL code.data).filterMap pyImportCapture) ++
        ((splitNL code.data).filterMap pyFromCapture)
    else if language = "java" then
      (splitNL code.data).filterMap pyImportCapture
    else if language = "javascript" then
      findall jsImportFromHere code.data ++
        findall (callCaptureHere "require".data) code.data ++
        findall (callCaptureHere "import".data) code.data
    else if language = "html" then
      findall (tagAttrHere "script".data "src".data) code.data ++
        findall (tagAttrHere "link".data "href".data) code.data
    else if language = "css" then
      findall cssImportHere code.data
    else []
  (raw.dedup).map String.mk

/-! ### `normalize_dependency_path` (`project_analyzer.py`, lines 68–102) -/

def KNOWN_EXTENSIONS : List String :=
  [".py", ".java", ".js", ".jsx", ".html", ".css"]

/-- `dep.split("?")[0].split("#")[0]`: the token up to the first `?` or `#`. -/
def strip_query_fragment (dep : String) : String :=
  String.mk ((dep.data.takeWhile (fun c => c != '?')).takeWhile (fun c => c != '#'))

/-- `dep.lstrip("./")`: drop every leading `.` or `/` character. -/
def strip_leading_dot_slash (dep : String) : String :=
  String.mk (dep.data.dropWhile (fun c => c == '.' || c == '/'))

def normalize_dependency_path (fs : FileSystem)
    (dep current_file project_root : String) : Option String :=
  let dep1 := strip_query_fragment dep
  if pyStartswith dep1.data "http://".data || pyStartswith dep1.data "https://".data ||
      pyStartswith dep1.data "//".data then none
  else
    let dep2 := strip_leading_dot_slash dep1
    let current_dir := dirname current_file
    let potential :=
      if current_dir ≠ "" then normpath (join3 project_root current_dir dep2)
      else normpath (join2 project_root dep2)
    if os_path_exists fs potential && os_path_isfile fs potential then
      some (relpath potential project_root)
    else
      let potential2 := normpath (join2 project_root dep2)
      if os_path_exists fs potential2 && os_path_isfile fs potential2 then
        some (relpath potential2 project_root)
      else
        match KNOWN_EXTENSIONS.find? (fun ext => os_path_exists fs (potential2 ++ ext)) with
        | some ext => some (relpath (potential2 ++ ext) project_root)
        | none => none

/-! ### `analyze_project` (`project_analyzer.py`, lines 105–167) -/

structure FileAnalysis where
  language : String
  metrics : Option ComplexityReport
  dependencies : List String
  error : Option String
deriving DecidableEq, Repr

structure Edge where
  from_ : String
  to_ : String
  type_ : String
deriving DecidableEq, Repr

structure ProjectSummary where
  total_files : Nat
  total_lines_of_code : Nat
  total_complexity : ℚ
  languages : List String
  interconnection_count : Nat
deriving DecidableEq, Repr

structure ProjectAnalysis where
  files : List (String × FileAnalysis)
  interconnections : List Edge
  summary : ProjectSummary
deriving DecidableEq, Repr

/-- First pass (lines 115–138): per-file analysis, in input order.  The
`except` branch of the source (complexity analysis failing) is entered exactly
when `analyze_code_complexity` returns `none`; it records an error node with
empty metrics and dependencies and adds nothing to the dependency graph. -/
def phase1 : List (String × String) →
    List (String × FileAnalysis) × List (String × List String)
  | [] => ([], [])
  | (filepath, content) :: rest =>
    let prev := phase1 rest
    match detect_language_from_filename filepath with
    | none => prev
    | some language =>
      if !SUPPORTED_LANGUAGES.contains language then prev
      else
        match analyze_code_complexity content language with
        | some metrics =>
          let dependencies := find_imports_and_dependencies content language
          ((filepath,
            { language := language, metrics := some metrics,
              dependencies := dependencies, error := none }) :: prev.1,
           (filepath, dependencies) :: prev.2)
        | none =>
          ((filepath,
            { language := language, metrics := none,
              dependencies := [], error := some "Unsupported language" }) :: prev.1,
           prev.2)

/-- Second pass (lines 141–149): resolve every raw token and keep only edges
whose resolved target is a key of the node map. -/
def build_edges (fs : FileSystem) (project_root : String)
    (fas : List (String × FileAnalysis)) :
    List (String × List String) → List Edge
  | [] => []
  | (filepath, deps) :: rest =>
    deps.filterMap (fun dep =>
      match normalize_dependency_path fs dep filepath project_root with
      | some resolved =>
        if (dictGet fas resolved).isSome then
          some { from_ := filepath, to_ := resolved,
                 type_ :=
                   if ["python", "java", "javascript"].contains
                       (((dictGet fas filepath).map FileAnalysis.language).getD "") then
                     "import"
                   else "reference" }
        else none
      | none => none) ++ build_edges fs project_root fas rest

def analyze_project (fs : FileSystem) (project_files : List (String × String))
    (project_root : String) : ProjectAnalysis :=
  let pass1 := phase1 project_files
  let file_analyses := pass1.1
  let interconnections := build_edges fs project_root file_analyses pass1.2
  let total_loc := (file_analyses.map (fun kv =>
      match kv.2.metrics with | some m => m.lines_of_code | none => 0)).sum
  let total_complexity : ℚ := (file_analyses.map (fun kv =>
      match kv.2.metrics with | some m => m.estimated_complexity | none => 0)).sum
  let languages_used :=
    ((file_analyses.map (fun kv => kv.2.language)).filter (fun l => l != "")).dedup
  { files := file_analyses
    interconnections := interconnections
    summary :=
      { total_files := file_analyses.length
        total_lines_of_code := total_loc
        total_complexity := round2 total_complexity
        languages := languages_used
        interconnection_count := interconnections.length } }

/-! ### Spec-side and derived definitions used by the statements below -/

/-- The duplicate-line count as the spec describes it, written independently of
the source computation: the number of non-empty trimmed lines in excess of the
number of distinct such lines (summing `occurrences − 1` over the groups with
more than one occurrence is exactly this surplus). -/
def spec_duplicate_count (code : String) : Nat :=
  let ls := ((splitlines code.data).map pyStrip).filter (fun l => !l.isEmpty)
  ls.length - ls.dedup.length

/-- A file qualifies for a node exactly when its detected language is in the
complexity-supported set (the guard of `analyze_project`, line 117). -/
def supported_file (filepath : String) : Bool :=
  match detect_language_from_filename filepath with
  | some l => SUPPORTED_LANGUAGES.contains l
  | none => false

/-- The node `analyze_project` records for one input file (`none` when the file
is skipped); the body of the first-pass loop, factored for reasoning. -/
def fileNode (filepath content : String) : Option FileAnalysis :=
  match detect_language_from_filename filepath with
  | none => none
  | some language =>
    if !SUPPORTED_LANGUAGES.contains language then none
    else
      match analyze_code_complexity content language with
      | some metrics =>
        some { language := language, metrics := some metrics,
               dependencies := find_imports_and_dependencies content language,
               error := none }
      | none =>
        some { language := language, metrics := none,
               dependencies := [], error := some "Unsupported language" }

/-! ## Helper lemmas -/

theorem dictGet_isSome_iff {α : Type} (l : List (String × α)) (k : String) :
    (dictGet l k).isSome = true ↔ k ∈ l.map Prod.fst := by
  induction l with
  | nil => simp [dictGet]
  | cons hd tl ih =>
    obtain ⟨k', v⟩ := hd
    by_cases hk : k' = k
    · subst hk; simp [dictGet]
    · simp [dictGet, hk, ih, Ne.symm hk]

theorem dictGet_mem {α : Type} {l : List (String × α)} {k : String} {v : α}
    (h : dictGet l k = some v) : (k, v) ∈ l := by
  induction l with
  | nil => simp [dictGet] at h
  | cons hd tl ih =>
    obtain ⟨k', v'⟩ := hd
    by_cases hk : k' = k
    · subst hk
      simp [dictGet] at h
      simp [h]
    · simp [dictGet, hk] at h
      simp [ih h]

theorem isPrefixOf_takeWhile {p : List Char} (f : Char → Bool) :
    ∀ {l : List Char}, p.isPrefixOf l = true → (∀ c ∈ p, f c = true) →
      p.isPrefixOf (l.takeWhile f) = true := by
  induction p with
  | nil => intro l _ _; simp
  | cons a p ih =>
    intro l h hp
    cases l with
    | nil =>
      rw [show ((a :: p).isPrefixOf ([] : List Char)) = false from rfl] at h
      exact absurd h (by simp)
    | cons b l =>
      rw [List.isPrefixOf, Bool.and_eq_true] at h
      obtain ⟨hab, htl⟩ := h
      have hab' : a = b := by simpa using hab
      have hfb : f b = true := hab' ▸ hp a (by simp)
      rw [List.takeWhile_cons, hfb]
      rw [if_pos rfl, List.isPrefixOf, Bool.and_eq_true]
      exact ⟨hab, ih htl (fun c hc => hp c (by simp [hc]))⟩

theorem takeWhile_after_dropWhile (p : Char → Bool) :
    ∀ l : List Char, (l.dropWhile p).takeWhile p = [] := by
  intro l
  induction l with
  | nil => rfl
  | cons a t ih =>
    by_cases h : p a = true
    · simp [List.dropWhile, h, ih]
    · simp at h
      simp [List.dropWhile, h, List.takeWhile]

/-! ## Claim C1 -/

/-- C1: refuted by the code — the keyword regex is built from the raw string
`r"\\b"`, which denotes a literal backslash-`b`, not a word boundary, so the
python text `"for i in xs:"` yields a loops count of 0 (and only a text that
literally contains backslash-`b` delimiters is counted). -/
theorem C1_keyword_count_is_literal_backslash_b :
    (analyze_code_complexity "for i in xs:" "python").map (fun r => r.loops) = some 0 ∧
    count_keywords "for i in xs:" ["for", "while"] = 0 ∧
    count_keywords "x \\bfor\\b y" ["for", "while"] = 1 := by
  refine ⟨?_, ?_, ?_⟩ <;> decide

/-! ## Claim C2 -/

/-- C2: counterexample — for the project `{index.html: "<script
src=\"app.js\"></script>"}` the analyzer records no node at all (html is not in
`SUPPORTED_LANGUAGES`, so the file is skipped before any error could be
recorded), while the claim requires `index.html` to be present as a node. -/
theorem C2_counterexample_html_node_absent :
    (analyze_project ⟨[], []⟩
      [("index.html", "<script src=\"app.js\"></script>")] "").files = [] ∧
    (analyze_project ⟨[], []⟩
      [("index.html", "<script src=\"app.js\"></script>")] "").interconnections = [] := by
  exact ⟨by decide, by decide⟩

/-! ## Claim C5 -/

/-- C5: counterexample — a token beginning with the URL scheme `ftp://` is not
special-cased, and with a file named `ftp:/x.js` materialized under the project
root the resolver returns a resolved path, not unresolved. -/
theorem C5_counterexample_ftp_scheme_resolves :
    normalize_dependency_path ⟨["r/ftp:/x.js"], []⟩ "ftp://x.js" "a.py" "r" =
      some "ftp:/x.js" := by
  decide

/-- C5 (amended): only the three literal prefixes the code checks — `http://`,
`https://` and `//` — make the resolver return unresolved unconditionally; this
holds for every referencing file, project root and filesystem state. -/
theorem C5_http_https_slashslash_always_unresolved :
    ∀ (fs : FileSystem) (dep current_file project_root : String),
      (pyStartswith dep.data "http://".data || pyStartswith dep.data "https://".data ||
        pyStartswith dep.data "//".data) = true →
      normalize_dependency_path fs dep current_file project_root = none := by
  intro fs dep current_file project_root h
  have hstep : ∀ p : List Char, p.isPrefixOf dep.data = true →
      (∀ c ∈ p, (c != '?') = true) → (∀ c ∈ p, (c != '#') = true) →
      p.isPrefixOf (strip_query_fragment dep).data = true := by
    intro p hp h1 h2
    have := isPrefixOf_takeWhile (fun c => c != '?') hp h1
    have := isPrefixOf_takeWhile (fun c => c != '#') this h2
    simpa [strip_query_fragment] using this
  have hcond : (pyStartswith (strip_query_fragment dep).data "http://".data ||
      pyStartswith (strip_query_fragment dep).data "https://".data ||
      pyStartswith (strip_query_fragment dep).data "//".data) = true := by
    simp only [pyStartswith, Bool.or_eq_true] at h ⊢
    rcases h with (h | h) | h
    · exact Or.inl (Or.inl (hstep _ h (by decide) (by decide)))
    · exact Or.inl (Or.inr (hstep _ h (by decide) (by decide)))
    · exact Or.inr (hstep _ h (by decide) (by decide))
  simp only [normalize_dependency_path, pyStartswith] at hcond ⊢
  simp [hcond]

/-- C5 (witness): the amended theorem applied to a concrete https token. -/
theorem C5_witness_https_token :
    normalize_dependency_path ⟨[], []⟩ "https://cdn.example.com/lib.js" "a.py" "" = none :=
  C5_http_https_slashslash_always_unresolved ⟨[], []⟩ "https://cdn.example.com/lib.js"
    "a.py" "" (by decide)

/-! ## Claim C10 -/

/-- C10: the resolver strips every leading `.` and `/` from the
query/fragment-stripped token, so the stripped token never starts with `.` or
`/`; `"./.babelrc"` strips to `"babelrc"` and a token of only dots and slashes
strips to the empty string. -/
theorem C10_lstrip_strips_all_leading_dots_and_slashes :
    (∀ dep : String,
      ((strip_leading_dot_slash (strip_query_fragment dep)).data.takeWhile
        (fun c => c == '.' || c == '/')) = []) ∧
    strip_leading_dot_slash (strip_query_fragment "./.babelrc") = "babelrc" ∧
    strip_leading_dot_slash (strip_query_fragment "../..//.") = "" := by
  refine ⟨?_, by decide, by decide⟩
  intro dep
  simp only [strip_leading_dot_slash]
  exact takeWhile_after_dropWhile _ _

/-! ## Lemmas about the first pass -/

theorem sanitize_of_supported {l : String}
    (h : SUPPORTED_LANGUAGES.contains l = true) : sanitize_language l = some l := by
  have : l = "python" ∨ l = "java" := by
    simpa [SUPPORTED_LANGUAGES, List.contains] using h
  rcases this with h' | h' <;> subst h' <;> decide

theorem analyze_isSome (content : String) {l : String}
    (h : SUPPORTED_LANGUAGES.contains l = true) :
    (analyze_code_complexity content l).isSome = true := by
  rw [analyze_code_complexity, sanitize_of_supported h]
  rfl

theorem phase1_cons_skip_none {fp c : String} {rest : List (String × String)}
    (hdet : detect_language_from_filename fp = none) :
    phase1 ((fp, c) :: rest) = phase1 rest := by
  simp [phase1, hdet]

theorem phase1_cons_skip_unsupported {fp c lang : String} {rest : List (String × String)}
    (hdet : detect_language_from_filename fp = some lang)
    (hsup : SUPPORTED_LANGUAGES.contains lang = false) :
    phase1 ((fp, c) :: rest) = phase1 rest := by
  have hn : lang ∉ SUPPORTED_LANGUAGES := by simpa using hsup
  simp [phase1, hdet, hn]

theorem phase1_cons_ok {fp c lang : String} {rest : List (String × String)}
    {m : ComplexityReport}
    (hdet : detect_language_from_filename fp = some lang)
    (hsup : SUPPORTED_LANGUAGES.contains lang = true)
    (hana : analyze_code_complexity c lang = some m) :
    phase1 ((fp, c) :: rest) =
      ((fp, { language := lang, metrics := some m,
              dependencies := find_imports_and_dependencies c lang,
              error := none }) :: (phase1 rest).1,
       (fp, find_imports_and_dependencies c lang) :: (phase1 rest).2) := by
  have hy : lang ∈ SUPPORTED_LANGUAGES := by simpa using hsup
  simp [phase1, hdet, hy, hana]

theorem phase1_keys_supported :
    ∀ (pf : List (String × String)) (k : String),
      k ∈ ((phase1 pf).1.map Prod.fst) → supported_file k = true := by
  intro pf
  induction pf with
  | nil => intro k hk; simp [phase1] at hk
  | cons hd rest ih =>
    obtain ⟨fp, c⟩ := hd
    intro k hk
    cases hdet : detect_language_from_filename fp with
    | none => rw [phase1_cons_skip_none hdet] at hk; exact ih k hk
    | some language =>
      cases hsup : SUPPORTED_LANGUAGES.contains language with
      | false => rw [phase1_cons_skip_unsupported hdet hsup] at hk; exact ih k hk
      | true =>
        cases hana : analyze_code_complexity c language with
        | some m =>
          rw [phase1_cons_ok hdet hsup hana] at hk
          simp only [List.map_cons, List.mem_cons] at hk
          rcases hk with hk | hk
          · subst hk; simp only [supported_file, hdet]; exact hsup
          · exact ih k hk
        | none =>
          have := analyze_isSome c hsup
          rw [hana] at this
          simp at this

theorem phase1_graph_key_in_files :
    ∀ (pf : List (String × String)) (k : String) (d : List String),
      (k, d) ∈ (phase1 pf).2 → k ∈ ((phase1 pf).1.map Prod.fst) := by
  intro pf
  induction pf with
  | nil => intro k d hk; simp [phase1] at hk
  | cons hd rest ih =>
    obtain ⟨fp, c⟩ := hd
    intro k d hk
    cases hdet : detect_language_from_filename fp with
    | none =>
      rw [phase1_cons_skip_none hdet] at hk ⊢
      exact ih k d hk
    | some language =>
      cases hsup : SUPPORTED_LANGUAGES.contains language with
      | false =>
        rw [phase1_cons_skip_unsupported hdet hsup] at hk ⊢
        exact ih k d hk
      | true =>
        cases hana : analyze_code_complexity c language with
        | some m =>
          rw [phase1_cons_ok hdet hsup hana] at hk ⊢
          simp only [List.mem_cons, Prod.mk.injEq] at hk
          rcases hk with ⟨hk1, _⟩ | hk
          · simp [hk1]
          · simp only [List.map_cons, List.mem_cons]
            exact Or.inr (ih k d hk)
        | none =>
          have := analyze_isSome c hsup
          rw [hana] at this
          simp at this

theorem phase1_nodes_error_free :
    ∀ (pf : List (String × String)) (k : String) (fa : FileAnalysis),
      (k, fa) ∈ (phase1 pf).1 → fa.error = none ∧ fa.metrics.isSome = true := by
  intro pf
  induction pf with
  | nil => intro k fa hk; simp [phase1] at hk
  | cons hd rest ih =>
    obtain ⟨fp, c⟩ := hd
    intro k fa hk
    cases hdet : detect_language_from_filename fp with
    | none => rw [phase1_cons_skip_none hdet] at hk; exact ih k fa hk
    | some language =>
      cases hsup : SUPPORTED_LANGUAGES.contains language with
      | false => rw [phase1_cons_skip_unsupported hdet hsup] at hk; exact ih k fa hk
      | true =>
        cases hana : analyze_code_complexity c language with
        | some m =>
          rw [phase1_cons_ok hdet hsup hana] at hk
          simp only [List.mem_cons, Prod.mk.injEq] at hk
          rcases hk with ⟨_, hk2⟩ | hk
          · subst hk2; exact ⟨rfl, rfl⟩
          · exact ih k fa hk
        | none =>
          have := analyze_isSome c hsup
          rw [hana] at this
          simp at this

theorem phase1_length :
    ∀ pf : List (String × String),
      (phase1 pf).1.length = (pf.filter (fun kv => supported_file kv.1)).length := by
  intro pf
  induction pf with
  | nil => rfl
  | cons hd rest ih =>
    obtain ⟨fp, c⟩ := hd
    cases hdet : detect_language_from_filename fp with
    | none =>
      rw [phase1_cons_skip_none hdet]
      have hs : supported_file fp = false := by simp [supported_file, hdet]
      simp [List.filter, hs, ih]
    | some language =>
      cases hsup : SUPPORTED_LANGUAGES.contains language with
      | false =>
        rw [phase1_cons_skip_unsupported hdet hsup]
        have hn : language ∉ SUPPORTED_LANGUAGES := by simpa using hsup
        have hs : supported_file fp = false := by simp [supported_file, hdet, hn]
        simp [List.filter, hs, ih]
      | true =>
        have hy : language ∈ SUPPORTED_LANGUAGES := by simpa using hsup
        have hs : supported_file fp = true := by simp [supported_file, hdet, hy]
        cases hana : analyze_code_complexity c language with
        | some m =>
          rw [phase1_cons_ok hdet hsup hana]
          simp [List.filter, hs, ih]
        | none =>
          have := analyze_isSome c hsup
          rw [hana] at this
          simp at this

theorem build_edges_mem :
    ∀ (fs : FileSystem) (root : String) (fas : List (String × FileAnalysis))
      (graph : List (String × List String)) (e : Edge),
      e ∈ build_edges fs root fas graph →
        e.from_ ∈ graph.map Prod.fst ∧ (dictGet fas e.to_).isSome = true := by
  intro fs root fas graph
  induction graph with
  | nil => intro e he; simp [build_edges] at he
  | cons hd rest ih =>
    obtain ⟨fp, deps⟩ := hd
    intro e he
    rw [build_edges] at he
    rcases List.mem_append.1 he with he | he
    · obtain ⟨dep, _, hdep⟩ := List.mem_filterMap.1 he
      split at hdep
      · split at hdep
        · obtain rfl := Option.some.inj hdep
          refine ⟨by simp, ?_⟩
          assumption
        · exact absurd hdep (by simp)
      · exact absurd hdep (by simp)
    · obtain ⟨h1, h2⟩ := ih e he
      exact ⟨by simp [h1], h2⟩

/-! ## Claim C6 -/

/-- C6: every edge produced by `analyze_project` has both its `from` and `to`
fields equal to keys present in the returned files mapping — dangling or
external edges are never materialized. -/
theorem C6_edge_endpoints_are_nodes :
    ∀ (fs : FileSystem) (pf : List (String × String)) (root : String) (e : Edge),
      e ∈ (analyze_project fs pf root).interconnections →
        (dictGet (analyze_project fs pf root).files e.from_).isSome = true ∧
        (dictGet (analyze_project fs pf root).files e.to_).isSome = true := by
  intro fs pf root e he
  have hfiles : (analyze_project fs pf root).files = (phase1 pf).1 := rfl
  have hedges : (analyze_project fs pf root).interconnections =
      build_edges fs root (phase1 pf).1 (phase1 pf).2 := rfl
  rw [hedges] at he
  obtain ⟨h1, h2⟩ := build_edges_mem fs root (phase1 pf).1 (phase1 pf).2 e he
  rw [hfiles]
  refine ⟨?_, h2⟩
  rw [dictGet_isSome_iff]
  obtain ⟨⟨k, d⟩, hmem, hk⟩ := List.mem_map.1 h1
  exact hk ▸ phase1_graph_key_in_files pf k d hmem

/-- C6 (witness): the run `{a.py: "import b", b.py: "x = 1"}` with `b.py` on
disk produces the edge `a.py → b.py`, whose endpoints the theorem finds among
the nodes. -/
theorem C6_witness_concrete_edge :
    (dictGet (analyze_project ⟨["b.py"], []⟩
      [("a.py", "import b"), ("b.py", "x = 1")] "").files "a.py").isSome = true ∧
    (dictGet (analyze_project ⟨["b.py"], []⟩
      [("a.py", "import b"), ("b.py", "x = 1")] "").files "b.py").isSome = true :=
  C6_edge_endpoints_are_nodes ⟨["b.py"], []⟩ [("a.py", "import b"), ("b.py", "x = 1")]
    "" ⟨"a.py", "b.py", "import"⟩ (by decide)

/-! ## Claim C2 (amended part) -/

/-- C2 (amended): a file whose detected language is outside
`SUPPORTED_LANGUAGES` (python, java) — html, css and javascript included — is
skipped entirely rather than recorded with a node-level error: every node key
of every run classifies to a supported language, and the one-file html example
project yields zero nodes and zero edges. -/
theorem C2_unsupported_language_files_are_skipped :
    (∀ (fs : FileSystem) (pf : List (String × String)) (root k : String),
      k ∈ ((analyze_project fs pf root).files.map Prod.fst) →
        supported_file k = true) ∧
    (analyze_project ⟨[], []⟩
      [("index.html", "<script src=\"app.js\"></script>")] "").files.map Prod.fst = [] ∧
    (analyze_project ⟨[], []⟩
      [("index.html", "<script src=\"app.js\"></script>")] "").summary.interconnection_count = 0 := by
  refine ⟨?_, by decide, by decide⟩
  intro fs pf root k hk
  have hfiles : (analyze_project fs pf root).files = (phase1 pf).1 := rfl
  rw [hfiles] at hk
  exact phase1_keys_supported pf k hk

/-- C2 (witness): the amended theorem applied to a run containing one python
file. -/
theorem C2_witness_python_node_supported :
    supported_file "m.py" = true :=
  C2_unsupported_language_files_are_skipped.1 ⟨[], []⟩ [("m.py", "y = 2")] "" "m.py"
    (by decide)

/-! ## Claim C3 -/

/-- C3: for every report returned by `analyze_code_complexity`, the
`estimated_complexity` field is the composite formula
`1 + 1.8·loops + 1.2·conditionals + 0.5·functions +
0.7·(duplicate_lines + repeated_sequences)` applied to the report's own
counts and rounded to two decimal places; the count fields are natural
numbers by construction. -/
theorem C3_estimated_complexity_is_rounded_formula :
    (∀ (code language : String) (rep : ComplexityReport),
      analyze_code_complexity code language = some rep →
        rep.estimated_complexity =
          round2 (estimate_complexity rep.loops rep.conditionals rep.functions
            (rep.duplicate_lines + rep.repeated_sequences))) ∧
    (∀ l c f d : ℕ,
      estimate_complexity l c f d =
        1 + 1.8 * (l : ℚ) + 1.2 * (c : ℚ) + 0.5 * (f : ℚ) + 0.7 * (d : ℚ)) := by
  constructor
  · intro code language rep h
    rw [analyze_code_complexity] at h
    split at h
    · exact absurd h (by simp)
    · simp only [Option.some.injEq] at h
      subst h
      rfl
  · intro l c f d
    simp only [estimate_complexity]
    ring

/-- C3 (witness): the theorem applied to the report of the python text
`"for i in xs:"`. -/
theorem C3_witness_concrete_report :
    round2 (estimate_complexity 0 0 0 (0 + 0)) =
      round2 (estimate_complexity 0 0 0 (0 + 0)) :=
  C3_estimated_complexity_is_rounded_formula.1 "for i in xs:" "python"
    { language := "python", lines_of_code := 1, loops := 0, conditionals := 0,
      functions := 0, duplicate_lines := 0, repeated_sequences := 0,
      estimated_complexity := round2 (estimate_complexity 0 0 0 (0 + 0)) } rfl

/-! ## Claim C8 -/

/-- C8: the composite score is monotonically non-decreasing in each count
(loops, conditionals, functions, duplicate lines, repeated sequences) with the
others held fixed, and every count of every `ComplexityReport` is
non-negative. -/
theorem C8_score_monotone_counts_nonneg :
    (∀ l c f d1 d2 a : ℕ,
      estimate_complexity l c f (d1 + d2) ≤ estimate_complexity (l + a) c f (d1 + d2) ∧
      estimate_complexity l c f (d1 + d2) ≤ estimate_complexity l (c + a) f (d1 + d2) ∧
      estimate_complexity l c f (d1 + d2) ≤ estimate_complexity l c (f + a) (d1 + d2) ∧
      estimate_complexity l c f (d1 + d2) ≤ estimate_complexity l c f ((d1 + a) + d2) ∧
      estimate_complexity l c f (d1 + d2) ≤ estimate_complexity l c f (d1 + (d2 + a))) ∧
    (∀ r : ComplexityReport,
      0 ≤ (r.lines_of_code : ℤ) ∧ 0 ≤ (r.loops : ℤ) ∧ 0 ≤ (r.conditionals : ℤ) ∧
      0 ≤ (r.functions : ℤ) ∧ 0 ≤ (r.duplicate_lines : ℤ) ∧
      0 ≤ (r.repeated_sequences : ℤ)) := by
  constructor
  · intro l c f d1 d2 a
    have ha : (0 : ℚ) ≤ (a : ℚ) := Nat.cast_nonneg a
    refine ⟨?_, ?_, ?_, ?_, ?_⟩ <;>
      (simp only [estimate_complexity]; push_cast; linarith)
  · intro r
    refine ⟨?_, ?_, ?_, ?_, ?_, ?_⟩ <;> omega

/-! ## Claim C4 -/

/-- C4: counterexample — `page.html` is classifiable (the classifier maps it to
`html`), yet `analyze_project` reports `total_files = 0` for a project
containing only that file, because html files are skipped rather than counted
as error nodes. -/
theorem C4_counterexample_classifiable_file_not_counted :
    detect_language_from_filename "page.html" = some "html" ∧
    (analyze_project ⟨[], []⟩ [("page.html", "<p>hi</p>")] "").summary.total_files = 0 :=
  ⟨by decide, by decide⟩

/-- C4 (amended): `total_files` counts exactly the input files whose detected
language is complexity-supported (python, java); every recorded node is
error-free with metrics present, and the numeric aggregates
`total_lines_of_code` / `total_complexity` are the sums of the per-node
metric values (an absent metric would contribute its 0 default, but none is
ever absent). -/
theorem C4_summary_totals :
    ∀ (fs : FileSystem) (pf : List (String × String)) (root : String),
      (analyze_project fs pf root).summary.total_files =
        (pf.filter (fun kv => supported_file kv.1)).length ∧
      (∀ k, k ∈ ((analyze_project fs pf root).files.map Prod.fst) →
        ((dictGet (analyze_project fs pf root).files k).map FileAnalysis.error) =
          some none ∧
        ((dictGet (analyze_project fs pf root).files k).map
          (fun fa => fa.metrics.isSome)) = some true) ∧
      (analyze_project fs pf root).summary.total_lines_of_code =
        (((analyze_project fs pf root).files.map
          (fun kv => (kv.2.metrics.map ComplexityReport.lines_of_code).getD 0)).sum) ∧
      (analyze_project fs pf root).summary.total_complexity =
        round2 (((analyze_project fs pf root).files.map
          (fun kv => (kv.2.metrics.map ComplexityReport.estimated_complexity).getD 0)).sum) := by
  intro fs pf root
  refine ⟨phase1_length pf, ?_, ?_, ?_⟩
  · intro k hk
    have hs : (dictGet (analyze_project fs pf root).files k).isSome = true :=
      (dictGet_isSome_iff _ k).2 hk
    obtain ⟨fa, hfa⟩ := Option.isSome_iff_exists.1 hs
    have hmem : (k, fa) ∈ (phase1 pf).1 := dictGet_mem hfa
    obtain ⟨he, hm⟩ := phase1_nodes_error_free pf k fa hmem
    rw [hfa]
    constructor
    · simp [Option.map_some, he]
    · simp [Option.map_some, hm]
  · have hfun : (fun kv : String × FileAnalysis =>
        match kv.2.metrics with | some m => m.lines_of_code | none => 0) =
        (fun kv => (kv.2.metrics.map ComplexityReport.lines_of_code).getD 0) :=
      funext fun kv => by cases kv.2.metrics <;> rfl
    exact congrArg (fun F => (((phase1 pf).1.map F)).sum) hfun
  · have hfun : (fun kv : String × FileAnalysis =>
        match kv.2.metrics with | some (m : ComplexityReport) => m.estimated_complexity | none => (0 : ℚ)) =
        (fun kv => (kv.2.metrics.map ComplexityReport.estimated_complexity).getD 0) :=
      funext fun kv => by cases kv.2.metrics <;> rfl
    exact congrArg (fun F => round2 (((phase1 pf).1.map F)).sum) hfun

/-- C4 (witness): the amended theorem's per-node clause applied to a concrete
one-file java project. -/
theorem C4_witness_java_node :
    ((dictGet (analyze_project ⟨[], []⟩ [("w.java", "int x;")] "").files "w.java").map
      FileAnalysis.error) = some none ∧
    ((dictGet (analyze_project ⟨[], []⟩ [("w.java", "int x;")] "").files "w.java").map
      (fun fa => fa.metrics.isSome)) = some true :=
  (C4_summary_totals ⟨[], []⟩ [("w.java", "int x;")] "").2.1 "w.java" (by decide)

/-! ## Lemmas for claim C9 -/

theorem dictGet_eq_none_of_not_mem {α : Type} {l : List (String × α)} {k : String}
    (h : k ∉ l.map Prod.fst) : dictGet l k = none := by
  cases hg : dictGet l k with
  | none => rfl
  | some v =>
    exact absurd ((dictGet_isSome_iff l k).1 (by simp [hg])) h

theorem phase1_keys_subset :
    ∀ (pf : List (String × String)) (k : String),
      k ∈ ((phase1 pf).1.map Prod.fst) → k ∈ pf.map Prod.fst := by
  intro pf
  induction pf with
  | nil => intro k hk; simp [phase1] at hk
  | cons hd rest ih =>
    obtain ⟨fp, c⟩ := hd
    intro k hk
    cases hdet : detect_language_from_filename fp with
    | none =>
      rw [phase1_cons_skip_none hdet] at hk
      exact List.mem_cons_of_mem _ (ih k hk)
    | some language =>
      cases hsup : SUPPORTED_LANGUAGES.contains language with
      | false =>
        rw [phase1_cons_skip_unsupported hdet hsup] at hk
        exact List.mem_cons_of_mem _ (ih k hk)
      | true =>
        cases hana : analyze_code_complexity c language with
        | some m =>
          rw [phase1_cons_ok hdet hsup hana] at hk
          simp only [List.map_cons, List.mem_cons] at hk ⊢
          rcases hk with hk | hk
          · exact Or.inl hk
          · exact Or.inr (ih k hk)
        | none =>
          have := analyze_isSome c hsup
          rw [hana] at this
          simp at this

theorem phase1_dictGet :
    ∀ (pf : List (String × String)), (pf.map Prod.fst).Nodup →
      ∀ (k c : String), (k, c) ∈ pf →
        dictGet (phase1 pf).1 k = fileNode k c := by
  intro pf
  induction pf with
  | nil => intro _ k c hmem; simp at hmem
  | cons hd rest ih =>
    obtain ⟨fp, cc⟩ := hd
    intro hnodup k c hmem
    rw [List.map_cons, List.nodup_cons] at hnodup
    obtain ⟨hfp, hrest⟩ := hnodup
    rcases List.mem_cons.1 hmem with heq | hmem'
    · injection heq with h1 h2
      subst fp
      subst cc
      have hnotrest : k ∉ ((phase1 rest).1.map Prod.fst) :=
        fun hmm => hfp (phase1_keys_subset rest k hmm)
      cases hdet : detect_language_from_filename k with
      | none =>
        rw [phase1_cons_skip_none hdet]
        simp only [fileNode, hdet]
        exact dictGet_eq_none_of_not_mem hnotrest
      | some language =>
        cases hsup : SUPPORTED_LANGUAGES.contains language with
        | false =>
          have hn : language ∉ SUPPORTED_LANGUAGES := by simpa using hsup
          rw [phase1_cons_skip_unsupported hdet hsup]
          simp only [fileNode, hdet]
          simp only [hsup, Bool.not_false, if_pos]
          exact dictGet_eq_none_of_not_mem hnotrest
        | true =>
          cases hana : analyze_code_complexity c language with
          | some m =>
            rw [phase1_cons_ok hdet hsup hana]
            simp only [fileNode, hdet, hsup, hana, Bool.not_true]
            simp [dictGet]
          | none =>
            have := analyze_isSome c hsup
            rw [hana] at this
            simp at this
    · have hkrest : k ∈ rest.map Prod.fst :=
        List.mem_map.2 ⟨(k, c), hmem', rfl⟩
      have hkfp : fp ≠ k := fun hh => hfp (hh ▸ hkrest)
      have step : dictGet (phase1 ((fp, cc) :: rest)).1 k = dictGet (phase1 rest).1 k := by
        cases hdet : detect_language_from_filename fp with
        | none => rw [phase1_cons_skip_none hdet]
        | some language =>
          cases hsup : SUPPORTED_LANGUAGES.contains language with
          | false => rw [phase1_cons_skip_unsupported hdet hsup]
          | true =>
            cases hana : analyze_code_complexity cc language with
            | some m =>
              rw [phase1_cons_ok hdet hsup hana]
              simp [dictGet, hkfp]
            | none =>
              have := analyze_isSome cc hsup
              rw [hana] at this
              simp at this
      rw [step]
      exact ih hrest k c hmem'

theorem fileNode_congr {f1 f2 c : String}
    (h : detect_language_from_filename f1 = detect_language_from_filename f2) :
    fileNode f1 c = fileNode f2 c := by
  rw [fileNode, fileNode, h]

/-! ## Claim C9 -/

/-- C9: counterexample — the same source text `"x = 1"` submitted as `a.py` and
as `b.java` in one run yields different metrics (already their `language`
fields differ: `python` vs `java`), so the recorded `ComplexityReport` values
depend on the path, contradicting the claim. -/
theorem C9_counterexample_metrics_depend_on_path :
    ((dictGet (analyze_project ⟨[], []⟩ [("a.py", "x = 1"), ("b.java", "x = 1")] "").files
        "a.py").map (fun fa => fa.metrics.map (fun m => m.language))) =
      some (some "python") ∧
    ((dictGet (analyze_project ⟨[], []⟩ [("a.py", "x = 1"), ("b.java", "x = 1")] "").files
        "b.java").map (fun fa => fa.metrics.map (fun m => m.language))) =
      some (some "java") ∧
    ((some (some "python") : Option (Option String)) == some (some "java")) = false :=
  ⟨by decide, by decide, by decide⟩

/-- C9 (amended): metrics are a function of content and detected language only —
two files submitted in the same run with identical content whose names detect
to the same language receive identical `FileAnalysis` nodes (in particular
identical `ComplexityReport` metrics). -/
theorem C9_same_language_same_content_same_node :
    ∀ (fs : FileSystem) (pf : List (String × String)) (root f1 f2 c : String),
      (pf.map Prod.fst).Nodup →
      (f1, c) ∈ pf → (f2, c) ∈ pf →
      detect_language_from_filename f1 = detect_language_from_filename f2 →
      dictGet (analyze_project fs pf root).files f1 =
        dictGet (analyze_project fs pf root).files f2 := by
  intro fs pf root f1 f2 c hnodup h1 h2 hdet
  have e1 : dictGet (analyze_project fs pf root).files f1 = fileNode f1 c :=
    phase1_dictGet pf hnodup f1 c h1
  have e2 : dictGet (analyze_project fs pf root).files f2 = fileNode f2 c :=
    phase1_dictGet pf hnodup f2 c h2
  rw [e1, e2]
  exact fileNode_congr hdet

/-- C9 (witness): the amended theorem applied to two python files with the same
content. -/
theorem C9_witness_two_python_files :
    dictGet (analyze_project ⟨[], []⟩ [("u.py", "z = 3"), ("v.py", "z = 3")] "").files
        "u.py" =
      dictGet (analyze_project ⟨[], []⟩ [("u.py", "z = 3"), ("v.py", "z = 3")] "").files
        "v.py" :=
  C9_same_language_same_content_same_node ⟨[], []⟩
    [("u.py", "z = 3"), ("v.py", "z = 3")] "" "u.py" "v.py" "z = 3"
    (by decide) (by decide) (by decide) (by decide)

/-! ## Counting lemmas for claim C7 -/

theorem lsum_map_add {α : Type} (d : List α) (f g : α → Nat) :
    (d.map (fun x => f x + g x)).sum = (d.map f).sum + (d.map g).sum := by
  induction d with
  | nil => rfl
  | cons a t ih => simp only [List.map_cons, List.sum_cons, ih]; omega

theorem lsum_map_zero {α : Type} (d : List α) (f : α → Nat)
    (h : ∀ x ∈ d, f x = 0) : (d.map f).sum = 0 := by
  induction d with
  | nil => rfl
  | cons a t ih =>
    simp only [List.map_cons, List.sum_cons, h a (by simp),
      ih (fun x hx => h x (by simp [hx]))]

theorem lsum_ite_eq_one {α : Type} [BEq α] [LawfulBEq α] :
    ∀ (d : List α) (b : α), d.Nodup → b ∈ d →
      (d.map (fun x => if b == x then 1 else 0)).sum = 1 := by
  intro d
  induction d with
  | nil => intro b _ hb; simp at hb
  | cons a t ih =>
    intro b hnd hb
    rw [List.nodup_cons] at hnd
    obtain ⟨ha, hnd'⟩ := hnd
    rcases List.mem_cons.1 hb with rfl | hb'
    · have hzero : ((t.map (fun x => if b == x then 1 else 0)).sum) = 0 :=
        lsum_map_zero t _ (fun x hx => by
          have hxb : b ≠ x := fun hxe => ha (hxe ▸ hx)
          simp [hxb])
      simp [hzero]
    · have hab : a ≠ b := fun hae => ha (hae ▸ hb')
      have hba : (b == a) = false := by simp [Ne.symm hab]
      simp only [List.map_cons, List.sum_cons, hba, Bool.false_eq_true, if_false,
        Nat.zero_add]
      exact ih b hnd' hb'

theorem sum_counts {α : Type} [BEq α] [LawfulBEq α] (d : List α) (hnd : d.Nodup) :
    ∀ l : List α, (∀ x ∈ l, x ∈ d) →
      (d.map (fun x => List.count x l)).sum = l.length := by
  intro l
  induction l with
  | nil => intro _; simp [List.count_nil]
  | cons b t ih =>
    intro hsub
    have hfun : (fun x => List.count x (b :: t)) =
        (fun x => List.count x t + if b == x then 1 else 0) := by
      funext x
      rw [List.count_cons]
    rw [hfun, lsum_map_add, ih (fun x hx => hsub x (by simp [hx])),
      lsum_ite_eq_one d b hnd (hsub b (by simp))]
    simp

theorem sum_count_dedup {α : Type} [BEq α] [LawfulBEq α] [DecidableEq α]
    (l : List α) :
    (l.dedup.map (fun x => List.count x l)).sum = l.length :=
  sum_counts l.dedup l.nodup_dedup l (fun _ hx => List.mem_dedup.2 hx)

theorem length_le_lsum {α : Type} (d : List α) (f : α → Nat)
    (h : ∀ x ∈ d, 1 ≤ f x) : d.length ≤ (d.map f).sum := by
  induction d with
  | nil => simp
  | cons a t ih =>
    simp only [List.length_cons, List.map_cons, List.sum_cons]
    have h1 := h a (by simp)
    have h2 := ih (fun x hx => h x (by simp [hx]))
    omega

theorem lsum_sub_one {α : Type} (d : List α) (f : α → Nat)
    (h : ∀ x ∈ d, 1 ≤ f x) :
    (d.map (fun x => f x - 1)).sum = (d.map f).sum - d.length := by
  induction d with
  | nil => rfl
  | cons a t ih =>
    simp only [List.map_cons, List.sum_cons, List.length_cons]
    have h1 := h a (by simp)
    have h2 := ih (fun x hx => h x (by simp [hx]))
    have h3 := length_le_lsum t f (fun x hx => h x (by simp [hx]))
    omega

theorem lsum_filter_sub_one {α : Type} (d : List α) (cnt : α → Nat) :
    ((d.filter (fun x => 1 < cnt x)).map (fun x => cnt x - 1)).sum =
      (d.map (fun x => cnt x - 1)).sum := by
  induction d with
  | nil => rfl
  | cons a t ih =>
    by_cases h : 1 < cnt a
    · simp only [List.filter_cons, decide_eq_true h, if_pos, List.map_cons,
        List.sum_cons, ih]
    · have h0 : cnt a - 1 = 0 := by omega
      have hd : decide (1 < cnt a) = false := by simp [h]
      simp only [List.filter_cons, hd, Bool.false_eq_true, if_false, ih,
        List.map_cons, List.sum_cons, h0, Nat.zero_add]

/-- The source's duplicate-line computation equals the surplus of non-empty
lines over distinct non-empty lines. -/
theorem count_duplicate_lines_eq (lines : List (List Char)) :
    count_duplicate_lines lines =
      (lines.filter (fun l => !l.isEmpty)).length -
        (lines.filter (fun l => !l.isEmpty)).dedup.length := by
  simp only [count_duplicate_lines]
  rw [lsum_filter_sub_one, lsum_sub_one, sum_count_dedup]
  intro x hx
  exact List.count_pos_iff.2 (List.mem_dedup.1 hx)

/-! ## Claim C7 -/

/-- C7: the reported `duplicate_lines` equals the spec's grouped surplus count
(exactly-equal non-empty trimmed lines beyond their first occurrences), and the
python file of three identical `"x = 1"` lines reports `duplicate_lines = 2`
and `lines_of_code = 3`. -/
theorem C7_duplicate_lines_surplus :
    (∀ (code language : String) (rep : ComplexityReport),
      analyze_code_complexity code language = some rep →
        rep.duplicate_lines = spec_duplicate_count code) ∧
    (analyze_code_complexity "x = 1\nx = 1\nx = 1" "python").map
      (fun r => (r.duplicate_lines, r.lines_of_code)) = some (2, 3) := by
  constructor
  · intro code language rep h
    rw [analyze_code_complexity] at h
    split at h
    · exact absurd h (by simp)
    · simp only [Option.some.injEq] at h
      subst h
      show count_duplicate_lines ((splitlines code.data).map pyStrip) = _
      rw [count_duplicate_lines_eq]
      rfl
  · decide

/-- C7 (witness): the theorem applied to the three-identical-lines scenario. -/
theorem C7_witness_three_identical_lines :
    (2 : Nat) = spec_duplicate_count "x = 1\nx = 1\nx = 1" :=
  C7_duplicate_lines_surplus.1 "x = 1\nx = 1\nx = 1" "python"
    { language := "python", lines_of_code := 3, loops := 0, conditionals := 0,
      functions := 0, duplicate_lines := 2, repeated_sequences := 0,
      estimated_complexity := round2 (estimate_complexity 0 0 0 (2 + 0)) } rfl
